import Mathlib

/-!
Verification of the skill-pool repository's ranking/merge/cache core
(`external_registry.py`, `unified_search.py`).

The Python code is shallowly embedded: strings are Lean `String`s over their
character lists (ASCII behaviour of Python's `re` word classes is modelled;
the code only ever tokenizes lowercased text), Python `float` arithmetic on
the small score expressions is modelled exactly over `ℚ`, Python dicts that
map skill names to records are modelled as association lists in insertion
order, and the I/O boundary (files fetched over the network, the cache file,
the bundled index file) is passed in explicitly as data.
-/

set_option autoImplicit false

/-- Word characters of the regular expressions in the source
(`\b` boundaries): ASCII letters, digits and underscore. -/
def isWordChar (c : Char) : Bool :=
  c.isAlpha || c.isDigit || c = '_'

/-- Lowercase ASCII letter, the character class `[a-z]` used by the
tokenizing regular expressions in the source. -/
def isLowerAlpha (c : Char) : Bool :=
  'a' ≤ c && c ≤ 'z'

/-- Splits a character list into its maximal runs of word characters,
accumulating the current run (reversed) in `acc`. -/
def wordRunsAux : List Char → List Char → List (List Char)
  | [], acc => if acc.isEmpty then [] else [acc.reverse]
  | c :: rest, acc =>
    if isWordChar c then wordRunsAux rest (c :: acc)
    else if acc.isEmpty then wordRunsAux rest []
    else acc.reverse :: wordRunsAux rest []

/-- Maximal runs of word characters of a character list. -/
def wordRuns (l : List Char) : List (List Char) :=
  wordRunsAux l []

/-- `re.findall(r'\b[a-z]{minLen,}\b', s)` on ASCII text: the maximal word
runs consisting only of lowercase letters, of length at least `minLen`.
(A run containing a digit or underscore has no inner `\b` boundary, so it
yields no match at all.) -/
def findTokens (minLen : Nat) (s : List Char) : List (List Char) :=
  (wordRuns s).filter (fun r => decide (minLen ≤ r.length) && r.all isLowerAlpha)

/-- Token list (with duplicates, in text order) as produced by the source's
`re.findall` calls. -/
def tokenize (minLen : Nat) (s : String) : List String :=
  (findTokens minLen s.toList).map String.mk

/-- Python `str.lower()` on ASCII text. -/
def lowerStr (s : String) : String :=
  String.mk (s.toList.map Char.toLower)

/-- Python `str.replace('-', ' ')`. -/
def hyphenToSpace (s : String) : String :=
  String.mk (s.toList.map (fun c => if c = '-' then ' ' else c))

/-- Keeps the first occurrence of each element; `seen` holds the elements
already emitted.  Used to model Python `set(...)` built from a list, read
back in a fixed (first-occurrence) iteration order. -/
def dedupFirstAux (seen : List String) : List String → List String
  | [] => []
  | x :: xs =>
    if x ∈ seen then dedupFirstAux seen xs
    else x :: dedupFirstAux (x :: seen) xs

/-- First-occurrence deduplication of a list of strings. -/
def dedupFirst (l : List String) : List String :=
  dedupFirstAux [] l

/-- Python `p in s` on character lists: `p` occurs contiguously in `s`.
The empty list is a substring of everything, as in Python. -/
def isSubstrL (p : List Char) : List Char → Bool
  | [] => p.isEmpty
  | c :: rest => p.isPrefixOf (c :: rest) || isSubstrL p rest

/-- Python `p in s` for strings. -/
def isSubstrS (p s : String) : Bool :=
  isSubstrL p.toList s.toList

/-- Python `s[:200]`. -/
def strTake200 (s : String) : String :=
  String.mk (s.toList.take 200)

/-- `RemoteSkill` dataclass of `external_registry.py` (the `keywords = None`
sentinel is normalized to `[]` by `__post_init__`, so the field is a plain
list here). -/
structure RemoteSkill where
  name : String
  description : String
  source : String
  url : String
  category : String
  keywords : List String
  readme_url : String
  skill_md_url : String
deriving DecidableEq, Repr

/-- `ExternalRegistry._calculate_score`: the weighted overlap score between a
query token set and a skill record.  The query set is passed as a list in its
iteration order (the source joins the set with spaces for the exact-match
test); overlap counts are set-intersection cardinalities, computed by
filtering a deduplicated list on membership. -/
def calculateScore (queryTokens : List String) (skill : RemoteSkill) : ℚ :=
  let nameTokens := dedupFirst (tokenize 2 (hyphenToSpace (lowerStr skill.name)))
  let descTokens := tokenize 2 (lowerStr skill.description)
  let nameOverlap : ℚ := ((nameTokens.filter (fun t => queryTokens.contains t)).length : ℕ)
  let descOverlap : ℚ := ((queryTokens.filter (fun t => descTokens.contains t)).length : ℕ)
  let keywordOverlap : ℚ := ((queryTokens.filter (fun t => skill.keywords.contains t)).length : ℕ)
  let nameScore0 : ℚ := nameOverlap / ((max nameTokens.length 1 : ℕ) : ℚ)
  let descScore : ℚ := descOverlap / ((max queryTokens.length 1 : ℕ) : ℚ) * (7 / 10)
  let keywordScore : ℚ := keywordOverlap / ((max queryTokens.length 1 : ℕ) : ℚ) * (1 / 2)
  let queryStr := String.intercalate " " queryTokens
  let nameScore : ℚ :=
    if hyphenToSpace (lowerStr skill.name) = queryStr ∨ isSubstrS (lowerStr skill.name) queryStr
    then 1 else nameScore0
  min ((nameScore + descScore + keywordScore) / (11 / 5)) 1

/-- The stopword set of `ExternalRegistry._extract_keywords`. -/
def stopwords : List String :=
  ["the", "a", "an", "is", "are", "was", "were", "be", "been",
   "have", "has", "had", "do", "does", "did", "will", "would",
   "to", "of", "in", "for", "on", "with", "at", "by", "from",
   "and", "but", "if", "or", "this", "that", "use", "using",
   "claude", "skill", "skills", "can", "your", "you"]

/-- Loop of `_extract_keywords`: `acc` is the keyword list built so far, in
reverse.  A word is appended when it is neither a stopword nor already seen;
the loop breaks once 15 keywords have been collected. -/
def extractKeywordsAux : List String → List String → List String
  | [], acc => acc.reverse
  | w :: ws, acc =>
    if w ∉ stopwords ∧ w ∉ acc then
      if 15 ≤ acc.length + 1 then (w :: acc).reverse
      else extractKeywordsAux ws (w :: acc)
    else extractKeywordsAux ws acc

/-- `ExternalRegistry._extract_keywords`: first-seen, stopword-filtered
tokens of length at least 3, capped at 15. -/
def extractKeywords (text : String) : List String :=
  extractKeywordsAux (tokenize 3 (lowerStr text)) []

/-- The ordered category table of `ExternalRegistry._categorize`
(Python dicts preserve insertion order, so iteration follows this
declaration order). -/
def categoriesList : List (String × List String) :=
  [("document-processing", ["docx", "pdf", "pptx", "xlsx", "document", "spreadsheet", "word", "excel"]),
   ("development", ["code", "git", "debug", "test", "build", "deploy", "api", "mcp", "plugin"]),
   ("data-analysis", ["data", "csv", "analyze", "chart", "visualization", "query", "database"]),
   ("creative", ["design", "image", "art", "canvas", "gif", "video", "theme", "brand"]),
   ("communication", ["email", "slack", "meeting", "write", "content", "comms"]),
   ("productivity", ["organize", "file", "invoice", "calendar", "task", "workflow", "automate"]),
   ("research", ["research", "search", "web", "scrape", "extract"]),
   ("security", ["security", "forensic", "threat", "vulnerability", "audit"])]

/-- The text `_categorize` scans: name and description joined by a space,
lowercased. -/
def catText (name description : String) : String :=
  lowerStr (name ++ " " ++ description)

/-- `any(kw in text for kw in keywords)` for one category row. -/
def catMatches (p : String × List String) (text : String) : Bool :=
  p.2.any (fun kw => isSubstrS kw text)

/-- The category loop of `_categorize`: first row with a matching keyword
wins, otherwise the fallthrough result. -/
def firstMatching : List (String × List String) → String → String
  | [], _ => "general"
  | p :: rest, text => if catMatches p text then p.1 else firstMatching rest text

/-- `ExternalRegistry._categorize`. -/
def categorize (name description : String) : String :=
  firstMatching categoriesList (catText name description)

/-- The fixed nine-element category set of the data model. -/
def fixedCategories : List String :=
  ["document-processing", "development", "data-analysis", "creative",
   "communication", "productivity", "research", "security", "general"]

/-- The in-memory index `self.skills`: a Python dict from skill name to
record, modelled as an association list in insertion order. -/
abbrev SkillMap := List (String × RemoteSkill)

/-- `name in self.skills`. -/
def mapHas (m : SkillMap) (k : String) : Bool :=
  m.any (fun p => p.1 = k)

/-- `self.skills.get(name)`. -/
def lookupSkill (m : SkillMap) (k : String) : Option RemoteSkill :=
  match m.find? (fun p => p.1 = k) with
  | some p => some p.2
  | none => none

/-- `self.skills[name] = skill`: dict assignment (overwrites in place,
appends new keys at the end). -/
def mapSet (m : SkillMap) (k : String) (v : RemoteSkill) : SkillMap :=
  if mapHas m k then m.map (fun p => if p.1 = k then (k, v) else p)
  else m ++ [(k, v)]

/-- One entry of `self.registries` (the Python key `type` is `rtype` here;
`priority` is optional because the source reads it with
`r.get("priority", 99)`). -/
structure RegistryCfg where
  name : String
  rtype : String
  owner : String
  repo : String
  branch : String
  url : String
  priority : Option Nat
deriving DecidableEq, Repr

/-- What the network returned for one candidate directory of a registry:
`parsed = none` models a failed (or empty) `SKILL.md` fetch, and otherwise
holds the `(name, description)` pair produced by
`_parse_skill_frontmatter` (either component may be absent). -/
structure DirFetch where
  dirName : String
  parsed : Option (Option String × Option String)
deriving DecidableEq, Repr

/-- The denylist of non-skill directories in `_index_github_registry`. -/
def skipDirs : List String :=
  ["docs", "examples", "tests", ".github", "scripts", "assets"]

/-- Python `opt or default` for an optional string: `None` and `""` both
fall back to the default. -/
def pyOrStr (o : Option String) (dflt : String) : String :=
  match o with
  | some s => if s = "" then dflt else s
  | none => dflt

/-- The `RemoteSkill(...)` constructed by `_index_github_registry` for a
directory whose frontmatter supplied (truthy) name `n`. -/
def mkRegistrySkill (reg : RegistryCfg) (dirName n : String) (descOpt : Option String) : RemoteSkill :=
  { name := n
    description := pyOrStr descOpt ("Skill from " ++ reg.name)
    source := reg.name
    url := reg.url ++ "/tree/" ++ reg.branch ++ "/" ++ dirName
    category := categorize n (pyOrStr descOpt "")
    keywords := extractKeywords (n ++ " " ++ pyOrStr descOpt "")
    readme_url := ""
    skill_md_url := "https://raw.githubusercontent.com/" ++ reg.owner ++ "/" ++ reg.repo
      ++ "/" ++ reg.branch ++ "/" ++ dirName ++ "/SKILL.md" }

/-- One iteration of the directory loop in `_index_github_registry`:
denylisted directories, failed fetches, missing or empty names are skipped;
otherwise the record is inserted only if the name is not already present. -/
def indexDirStep (reg : RegistryCfg) (m : SkillMap) (d : DirFetch) : SkillMap :=
  if skipDirs.contains d.dirName then m
  else
    match d.parsed with
    | none => m
    | some (none, _) => m
    | some (some n, descOpt) =>
      if n = "" then m
      else if mapHas m n then m
      else m ++ [(n, mkRegistrySkill reg d.dirName n descOpt)]

/-- `ExternalRegistry._index_github_registry` over the fetched directory
list. -/
def indexGithubRegistry (reg : RegistryCfg) : SkillMap → List DirFetch → SkillMap
  | m, [] => m
  | m, d :: ds => indexGithubRegistry reg (indexDirStep reg m d) ds

/-- Stable insertion into a list sorted ascending by a `Nat` key (the
element being inserted precedes equal keys already present, matching
Python's stable `sorted`). -/
def insertAscBy {α : Type} (key : α → Nat) (x : α) : List α → List α
  | [] => [x]
  | y :: ys => if key x ≤ key y then x :: y :: ys else y :: insertAscBy key x ys

/-- Stable ascending sort by a `Nat` key, modelling
`sorted(registries, key=lambda r: r.get("priority", 99))`. -/
def sortAscBy {α : Type} (key : α → Nat) : List α → List α
  | [] => []
  | x :: xs => insertAscBy key x (sortAscBy key xs)

/-- The registry loop of `load_index`: registries sorted ascending by
priority (default 99), each `github`-typed registry indexed in turn into
the accumulating map. -/
def buildRegistries (m : SkillMap) (regs : List (RegistryCfg × List DirFetch)) : SkillMap :=
  (sortAscBy (fun rd => rd.1.priority.getD 99) regs).foldl
    (fun acc rd => if rd.1.rtype = "github" then indexGithubRegistry rd.1 acc rd.2 else acc) m

/-- One `skills` entry of the bundled index file, after JSON parsing: every
field is read with `dict.get(..., default)`, so each is optional here
(`none` models a missing key). -/
structure BundledEntry where
  name : Option String
  description : Option String
  source : Option String
  url : Option String
  category : Option String
  keywords : Option (List String)
  skill_md_url : Option String
deriving DecidableEq, Repr

/-- The `RemoteSkill` built by `_load_bundled_index` for one entry, with the
source's defaults for missing fields. -/
def entryToSkill (e : BundledEntry) : RemoteSkill :=
  { name := e.name.getD ""
    description := e.description.getD ""
    source := e.source.getD "awesome-claude-skills"
    url := e.url.getD ""
    category := e.category.getD "general"
    keywords := e.keywords.getD []
    readme_url := ""
    skill_md_url := e.skill_md_url.getD "" }

/-- `ExternalRegistry._load_bundled_index`: when a bundled index file exists
and parses (`some entries`), every entry is assigned into the map by dict
assignment (overwriting), and the call reports success; a missing or corrupt
file reports failure and leaves the map unchanged. -/
def bundledBranch (b : Option (List BundledEntry)) (m : SkillMap) : SkillMap × Bool :=
  match b with
  | none => (m, false)
  | some entries => (entries.foldl (fun acc e => mapSet acc (entryToSkill e).name (entryToSkill e)) m, true)

/-- The characters of the UTC offset suffix `+00:00` that
`datetime.isoformat()` appends to an aware datetime. -/
def offsetChars : List Char := ['+', '0', '0', ':', '0', '0']

/-- `datetime.now(timezone.utc).isoformat()`: a civil date-time body followed
by the single offset `+00:00`.  The body (the `YYYY-MM-DDTHH:MM:SS.ffffff`
part) is modelled as the decimal rendering of the time in seconds; the only
properties the development relies on are that it ends in exactly one
`+00:00` and that the body contains no further offset. -/
def isoFormatUtc (t : Nat) : List Char :=
  (toString t).toList ++ offsetChars

/-- Python `s.replace('Z', '+00:00')` — replaces every occurrence. -/
def replaceZL (cs : List Char) : List Char :=
  cs.foldr (fun c acc => (if c = 'Z' then offsetChars else [c]) ++ acc) []

/-- Decimal digits to a number (helper for the parse model). -/
def digitsToNat (cs : List Char) : Nat :=
  cs.foldl (fun n c => 10 * n + (c.toNat - 48)) 0

/-- `datetime.fromisoformat` at the library boundary, for UTC strings: the
input must be a non-empty all-digit body (the civil date-time, encoded as in
`isoFormatUtc`) followed by exactly one trailing `+00:00` offset; anything
else raises `ValueError`, modelled as `none`. -/
def fromIsoL (cs : List Char) : Option Nat :=
  if 6 ≤ cs.length
      ∧ cs.drop (cs.length - 6) = offsetChars
      ∧ (cs.take (cs.length - 6)).all Char.isDigit
      ∧ cs.length ≠ 6
  then some (digitsToNat (cs.take (cs.length - 6)))
  else none

/-- The parsed cache file (`external_index.json`): the shape written by
`_save_cache` with `updated` kept as the raw string. -/
structure CacheData where
  version : String
  updated : String
  skill_count : Nat
  skills : List RemoteSkill
deriving DecidableEq, Repr

/-- `ExternalRegistry._save_cache` at time `t`: `updated` is
`isoformat() + "Z"`, and the `skills` array holds the map's records in
insertion order. -/
def saveCacheData (m : SkillMap) (t : Nat) : CacheData :=
  { version := "1.0"
    updated := String.mk (isoFormatUtc t ++ ['Z'])
    skill_count := m.length
    skills := m.map Prod.snd }

/-- The cache-reading branch of `load_index`: parse `updated` after
replacing `Z` with `+00:00`; on a parse error (`ValueError`, caught) or a
stale timestamp the branch falls through (`none`); on a fresh timestamp every
cached record is assigned into the map and `load_index` returns. -/
def cacheBranch (cd : CacheData) (now : Nat) (m : SkillMap) : Option SkillMap :=
  match fromIsoL (replaceZL cd.updated.toList) with
  | none => none
  | some t =>
    if (now : ℤ) - (t : ℤ) < 86400 then
      some (cd.skills.foldl (fun acc sk => mapSet acc sk.name sk) m)
    else none

/-- All inputs `load_index` consumes: the cache file if present and
JSON-parsable, the bundled index file if present and parsable, the fetched
contents of each configured registry, and the current time in seconds. -/
structure Env where
  cacheFile : Option CacheData
  bundledFile : Option (List BundledEntry)
  fetched : List (RegistryCfg × List DirFetch)
  now : Nat

/-- `ExternalRegistry.load_index` over `Env`, started with in-memory map
`skills0`: a fresh readable cache (unless `force_refresh`) is loaded and the
call returns without writing; otherwise the bundled index is tried, the
registries are indexed when forced or when no bundle loaded, and a non-empty
result is persisted.  Returns the final map and the written cache file (if
any). -/
def loadIndexModel (env : Env) (forceRefresh : Bool) (skills0 : SkillMap) :
    SkillMap × Option CacheData :=
  match (if forceRefresh then none else env.cacheFile.bind (fun cd => cacheBranch cd env.now skills0)) with
  | some m => (m, none)
  | none =>
    let bp := bundledBranch env.bundledFile skills0
    let m2 := if forceRefresh || !bp.2 then buildRegistries bp.1 env.fetched else bp.1
    (m2, if m2.isEmpty then none else some (saveCacheData m2 env.now))

/-- `ExternalRegistry.refresh`: clear the in-memory map, then
`load_index(force_refresh=True)`. -/
def refreshModel (env : Env) : SkillMap × Option CacheData :=
  loadIndexModel env true []

/-- The purely-network-built index: the registry merge started from an empty
map (the spec's `loaded-from-network` state). -/
def networkBuild (env : Env) : SkillMap :=
  buildRegistries [] env.fetched

/-- Round half to even (Python `round` tie behaviour) of a rational to an
integer. -/
def roundHalfEvenZ (q : ℚ) : ℤ :=
  let f := ⌊q⌋
  let r := q - (f : ℚ)
  if r < 1 / 2 then f
  else if 1 / 2 < r then f + 1
  else if f % 2 = 0 then f else f + 1

/-- Python `round(x, 3)`. -/
def round3 (q : ℚ) : ℚ :=
  ((roundHalfEvenZ (q * 1000) : ℤ) : ℚ) / 1000

/-- One result dict produced by `ExternalRegistry.search`. -/
structure SearchEntry where
  name : String
  score : ℚ
  description : String
  category : String
  source : String
  url : String
  skill_md_url : String
deriving DecidableEq, Repr

/-- Stable insertion into a list sorted descending by a `ℚ` key (the element
being inserted goes after existing entries with a greater-or-equal key,
matching Python's stable `list.sort(..., reverse=True)`). -/
def insertDescBy {α : Type} (key : α → ℚ) (x : α) : List α → List α
  | [] => [x]
  | y :: ys => if key y ≤ key x then x :: y :: ys else y :: insertDescBy key x ys

/-- Stable descending sort by a `ℚ` key. -/
def sortDescBy {α : Type} (key : α → ℚ) : List α → List α
  | [] => []
  | x :: xs => insertDescBy key x (sortDescBy key xs)

/-- `ExternalRegistry.search` over a loaded map: tokenize the query into a
set, return `[]` when it is empty, otherwise score every record, keep those
at or above the threshold (building the result dict with the description
truncated to 200 characters and the score rounded to 3 decimals), sort by
score descending and truncate to `top_n`. -/
def searchExternal (m : SkillMap) (query : String) (topN : Nat) (threshold : ℚ) :
    List SearchEntry :=
  let queryTokens := dedupFirst (tokenize 2 (lowerStr query))
  if queryTokens.isEmpty then []
  else
    let results := (m.map Prod.snd).filterMap (fun sk =>
      let score := calculateScore queryTokens sk
      if threshold ≤ score then
        some { name := sk.name
               score := round3 score
               description := strTake200 sk.description
               category := sk.category
               source := sk.source
               url := sk.url
               skill_md_url := sk.skill_md_url }
      else none)
    (sortDescBy (fun e => e.score) results).take topN

/-- Modelled from the spec: one ranked result returned by the local
collaborator (`skill_registry.py`, which is not under `src/`).  Per the spec
(section 6) it is a record shaped per section 3 plus a relevance `score`; a
local result carries a filesystem `path` rather than a repository `url`. -/
structure LocalHit where
  name : String
  score : ℚ
  description : String
  path : String
deriving DecidableEq, Repr

/-- One entry of the merged list `all_results` inside
`UnifiedSkillSearch.recommend`: fields absent from one of the two source
shapes are optional. -/
structure MergedHit where
  name : String
  score : ℚ
  description : String
  source : String
  installed : Bool
  url : Option String
  path : Option String
  skill_md_url : Option String
deriving DecidableEq, Repr

/-- `{**r, "source": "local", "installed": True}` for a local result. -/
def toMergedLocal (r : LocalHit) : MergedHit :=
  { name := r.name, score := r.score, description := r.description,
    source := "local", installed := true,
    url := none, path := some r.path, skill_md_url := none }

/-- `{**r, "installed": False}` for an external result. -/
def toMergedExt (r : SearchEntry) : MergedHit :=
  { name := r.name, score := r.score, description := r.description,
    source := r.source, installed := false,
    url := some r.url, path := none, skill_md_url := some r.skill_md_url }

/-- The dict returned by `UnifiedSkillSearch.recommend`, with optional
fields for the keys present only in one of the two outcomes. -/
structure Recommendation where
  recommended : Bool
  confidence : ℚ
  message : Option String
  skill : Option String
  installed : Option Bool
  source : Option String
  url : Option String
  description : Option String
  alternatives : List String
  install_command : Option String
deriving DecidableEq, Repr

/-- `UnifiedSkillSearch._get_install_command_from_result`. -/
def installCmdFromResult (h : MergedHit) : String :=
  match h.skill_md_url with
  | some u =>
    if u = "" then "# Visit: " ++ (h.url.getD "N/A")
    else "curl -sL " ++ u ++ " -o ~/.claude/skills/" ++ h.name ++ "/SKILL.md --create-dirs"
  | none => "# Visit: " ++ (h.url.getD "N/A")

/-- The "not recommended" dict of `recommend`. -/
def noRecommendation (query : String) : Recommendation :=
  { recommended := false, confidence := 0,
    message := some ("No skills found matching '" ++ query ++ "'"),
    skill := none, installed := none, source := none, url := none,
    description := none, alternatives := [], install_command := none }

/-- The merge/sort/pick core of `UnifiedSkillSearch.recommend`, applied to
the two per-source result lists: tag and concatenate, stable-sort descending
by score, and return either the "not recommended" dict or the top entry with
the next three names as alternatives. -/
def recommendFromHits (query : String) (localHits : List LocalHit)
    (externalHits : List SearchEntry) : Recommendation :=
  let allResults := localHits.map toMergedLocal ++ externalHits.map toMergedExt
  match sortDescBy (fun h => h.score) allResults with
  | [] => noRecommendation query
  | best :: rest =>
    { recommended := true
      confidence := best.score
      message := none
      skill := some best.name
      installed := some best.installed
      source := some best.source
      url := some (best.url.getD (best.path.getD ""))
      description := some best.description
      alternatives := (rest.take 3).map (fun h => h.name)
      install_command := if best.installed then none else some (installCmdFromResult best) }

/-- Modelled from the spec: the local collaborator's
`search(query, top_n)` (`skill_registry.py` is not under `src/`).  Per spec
sections 4.5 and 4.6 it tokenizes the query, scores every locally installed
candidate with the section 4.5 scorer, filters by the 0.1 threshold, sorts
descending by score and truncates.  Each candidate is a section-3 record
plus its install path. -/
def localSearch (cands : List (RemoteSkill × String)) (query : String) (topN : Nat) :
    List LocalHit :=
  let queryTokens := dedupFirst (tokenize 2 (lowerStr query))
  let scored := cands.filterMap (fun c =>
    let s := calculateScore queryTokens c.1
    if (1 : ℚ) / 10 ≤ s then some (⟨c.1.name, s, c.1.description, c.2⟩ : LocalHit) else none)
  (sortDescBy (fun h => h.score) scored).take topN

/-- `UnifiedSkillSearch.recommend`: `search(query, top_n=5)` over both
sources, then the merge/sort/pick core. -/
def recommendModel (cands : List (RemoteSkill × String)) (m : SkillMap) (query : String) :
    Recommendation :=
  recommendFromHits query (localSearch cands query 5) (searchExternal m query 5 (1 / 10))

/-- The section 4.5 score formula exactly as claim C3 words it, including
forcing `name_score` to 1.0 when the hyphen-to-space-normalized name is a
substring of the space-joined query. -/
def scoreSpecClaimed (queryTokens : List String) (skill : RemoteSkill) : ℚ :=
  let q := queryTokens.toFinset
  let nameT := (tokenize 2 (hyphenToSpace (lowerStr skill.name))).toFinset
  let descT := (tokenize 2 (lowerStr skill.description)).toFinset
  let kwT := skill.keywords.toFinset
  let joined := String.intercalate " " queryTokens
  let nameScore : ℚ :=
    if hyphenToSpace (lowerStr skill.name) = joined
        ∨ isSubstrS (hyphenToSpace (lowerStr skill.name)) joined
    then 1
    else ((q ∩ nameT).card : ℚ) / ((max nameT.card 1 : ℕ) : ℚ)
  let descScore : ℚ := ((q ∩ descT).card : ℚ) / ((max q.card 1 : ℕ) : ℚ)
  let keywordScore : ℚ := ((q ∩ kwT).card : ℚ) / ((max q.card 1 : ℕ) : ℚ)
  min ((nameScore + descScore * (7 / 10) + keywordScore * (1 / 2)) / (11 / 5)) 1

/-- The section 4.5 score formula as amended: identical to the claimed
formula except that the substring branch of the exact-match override tests
the lowercased name with its hyphens intact (as the source does), not the
hyphen-to-space-normalized name. -/
def scoreSpecAmended (queryTokens : List String) (skill : RemoteSkill) : ℚ :=
  let q := queryTokens.toFinset
  let nameT := (tokenize 2 (hyphenToSpace (lowerStr skill.name))).toFinset
  let descT := (tokenize 2 (lowerStr skill.description)).toFinset
  let kwT := skill.keywords.toFinset
  let joined := String.intercalate " " queryTokens
  let nameScore : ℚ :=
    if hyphenToSpace (lowerStr skill.name) = joined
        ∨ isSubstrS (lowerStr skill.name) joined
    then 1
    else ((q ∩ nameT).card : ℚ) / ((max nameT.card 1 : ℕ) : ℚ)
  let descScore : ℚ := ((q ∩ descT).card : ℚ) / ((max q.card 1 : ℕ) : ℚ)
  let keywordScore : ℚ := ((q ∩ kwT).card : ℚ) / ((max q.card 1 : ℕ) : ℚ)
  min ((nameScore + descScore * (7 / 10) + keywordScore * (1 / 2)) / (11 / 5)) 1

theorem replaceZL_nil : replaceZL [] = [] := rfl

theorem replaceZL_cons (c : Char) (cs : List Char) :
    replaceZL (c :: cs) = (if c = 'Z' then offsetChars else [c]) ++ replaceZL cs := rfl

theorem replaceZL_append (a b : List Char) :
    replaceZL (a ++ b) = replaceZL a ++ replaceZL b := by
  induction a with
  | nil => simp [replaceZL_nil]
  | cons c cs ih => simp [replaceZL_cons, ih]

theorem replaceZL_offset : replaceZL offsetChars = offsetChars := rfl

theorem replaceZL_z : replaceZL ['Z'] = offsetChars := rfl

/-- A string carrying two trailing `+00:00` offsets is not a valid
ISO-8601 datetime. -/
theorem fromIsoL_double_offset (l : List Char) :
    fromIsoL ((l ++ offsetChars) ++ offsetChars) = none := by
  unfold fromIsoL
  rw [if_neg]
  rintro ⟨-, -, h3, -⟩
  have hlen : ((l ++ offsetChars) ++ offsetChars).length - 6 = (l ++ offsetChars).length := by
    simp [List.length_append, offsetChars]
  rw [hlen, List.take_left] at h3
  rw [List.all_append] at h3
  have : offsetChars.all Char.isDigit = true := by
    exact (Bool.and_elim_right h3)
  exact absurd this (by decide)

/-- C1.  The cache does not round-trip: a cache file written by
`_save_cache` is rejected by the cache-reading branch of `load_index` at
every later time, even inside the 24-hour freshness window.  `_save_cache`
writes `updated = isoformat() + "Z"` (which already ends in `+00:00`), and
the loader's `replace('Z', '+00:00')` then produces a string ending in
`+00:00+00:00`, which `fromisoformat` rejects (`ValueError`), so the branch
always falls through to the bundled/network path and never reproduces the
saved records. -/
theorem cache_roundtrip_code_bug (m init : SkillMap) (t now : Nat) :
    cacheBranch (saveCacheData m t) now init = none := by
  have hupd : (saveCacheData m t).updated.toList
      = ((toString t).toList ++ offsetChars) ++ ['Z'] := by
    simp [saveCacheData, isoFormatUtc, String.mk]
  unfold cacheBranch
  rw [hupd, replaceZL_append, replaceZL_append, replaceZL_z]
  have : (replaceZL (toString t).toList ++ replaceZL offsetChars) ++ offsetChars
      = ((replaceZL (toString t).toList ++ offsetChars) ++ offsetChars) := by
    rw [replaceZL_offset]
  rw [this, fromIsoL_double_offset]

theorem str_toList_ne (s : String) (h : s ≠ "") : s.toList ≠ [] := by
  intro hl
  apply h
  exact String.ext hl

theorem score_nonneg (q : List String) (sk : RemoteSkill) : 0 ≤ calculateScore q sk := by
  unfold calculateScore
  apply le_min _ zero_le_one
  split_ifs with h
  · positivity
  · positivity

theorem score_le_one (q : List String) (sk : RemoteSkill) : calculateScore q sk ≤ 1 := by
  unfold calculateScore
  exact min_le_right _ _

theorem score_empty (sk : RemoteSkill) (h : sk.name ≠ "") : calculateScore [] sk = 0 := by
  have hlower : (lowerStr sk.name).toList ≠ [] := by
    simp only [lowerStr, String.mk]
    simp only [String.toList]
    intro hh
    exact str_toList_ne _ h (List.map_eq_nil_iff.mp hh)
  have h1 : hyphenToSpace (lowerStr sk.name) ≠ "" := by
    unfold hyphenToSpace
    intro he
    have : (lowerStr sk.name).toList.map (fun c => if c = '-' then ' ' else c) = [] :=
      congrArg String.toList he
    exact hlower (List.map_eq_nil_iff.mp this)
  have h2 : isSubstrS (lowerStr sk.name) "" = false := by
    unfold isSubstrS
    have : ("" : String).toList = [] := rfl
    rw [this]
    unfold isSubstrL
    simpa [List.isEmpty_iff] using hlower
  have hcn : ∀ t : String, ([] : List String).contains t = false := fun _ => rfl
  simp only [calculateScore, String.intercalate]
  rw [if_neg]
  · simp [hcn, List.filter_false]
  · rintro (hc | hc)
    · exact h1 hc
    · rw [h2] at hc
      exact Bool.false_ne_true hc

/-- Concrete record used by witnesses: exact-name skill with empty
description and no keywords. -/
def skPdf : RemoteSkill := ⟨"pdf", "", "test-registry", "", "general", [], "", ""⟩

/-- C6.  Scores are always within `[0, 1]`, and for a record with non-empty
name the empty query token set scores exactly `0` (the computation is total:
every division's denominator is guarded by `max(n, 1)`). -/
theorem score_bounds (q : List String) (sk : RemoteSkill) (h : sk.name ≠ "") :
    (0 ≤ calculateScore q sk ∧ calculateScore q sk ≤ 1) ∧ calculateScore [] sk = 0 :=
  ⟨⟨score_nonneg q sk, score_le_one q sk⟩, score_empty sk h⟩

/-- C6 witness at a concrete query and record. -/
theorem score_bounds_witness :
    (0 ≤ calculateScore ["pdf"] skPdf ∧ calculateScore ["pdf"] skPdf ≤ 1)
      ∧ calculateScore [] skPdf = 0 :=
  score_bounds ["pdf"] skPdf (by decide)

/-- C2 counterexample.  The query token set `{"pdf"}` matches the record
named `"pdf"` exactly (the normalized name equals the joined query), yet the
returned score is `5/11 ≈ 0.4545`, not `1.0`: the exact-match override only
forces the name component to `1.0`, after which the total is still divided
by `2.2`. -/
theorem exact_match_score_counterexample :
    hyphenToSpace (lowerStr skPdf.name) = String.intercalate " " ["pdf"]
      ∧ calculateScore ["pdf"] skPdf = 5 / 11
      ∧ calculateScore ["pdf"] skPdf ≠ 1 := by
  have h2 : calculateScore ["pdf"] skPdf = 5 / 11 := by
    show (min ((1 + 0 / 1 * (7 / 10) + 0 / 1 * (1 / 2)) / (11 / 5)) 1 : ℚ) = 5 / 11
    norm_num
  refine ⟨rfl, h2, ?_⟩
  rw [h2]
  norm_num

/-- C2 (amended).  When the record's name matches the query exactly up to
case and hyphen/space normalization, the exact-match override forces the
name component to `1.0`, so the returned score lies in `[1/2.2, 1]`
(equal to `5/11` when description and keywords contribute nothing) — but it
is not `1.0` in general and does depend on the description content. -/
theorem exact_match_score_amended (q : List String) (sk : RemoteSkill)
    (h : hyphenToSpace (lowerStr sk.name) = String.intercalate " " q) :
    5 / 11 ≤ calculateScore q sk ∧ calculateScore q sk ≤ 1 := by
  refine ⟨?_, score_le_one q sk⟩
  simp only [calculateScore]
  rw [if_pos (Or.inl h)]
  apply le_min _ (by norm_num)
  rw [le_div_iff₀ (by norm_num : (0 : ℚ) < 11 / 5)]
  have hd : (0 : ℚ) ≤ ((List.filter (fun t => (tokenize 2 (lowerStr sk.description)).contains t) q).length : ℚ)
      / ((max q.length 1 : ℕ) : ℚ) * (7 / 10) := by positivity
  have hk : (0 : ℚ) ≤ ((List.filter (fun t => sk.keywords.contains t) q).length : ℚ)
      / ((max q.length 1 : ℕ) : ℚ) * (1 / 2) := by positivity
  linarith

/-- C2 (amended) witness at the concrete exact-match instance. -/
theorem exact_match_score_amended_witness :
    5 / 11 ≤ calculateScore ["pdf"] skPdf ∧ calculateScore ["pdf"] skPdf ≤ 1 :=
  exact_match_score_amended ["pdf"] skPdf rfl

theorem mem_dedupFirstAux (l : List String) :
    ∀ (seen : List String) (x : String), x ∈ dedupFirstAux seen l ↔ x ∈ l ∧ x ∉ seen := by
  induction l with
  | nil => intro seen x; simp [dedupFirstAux]
  | cons a as ih =>
    intro seen x
    unfold dedupFirstAux
    split_ifs with ha
    · rw [ih]
      constructor
      · rintro ⟨hx, hs⟩; exact ⟨List.mem_cons_of_mem _ hx, hs⟩
      · rintro ⟨hx, hs⟩
        rcases List.mem_cons.mp hx with h | h
        · exact absurd (h ▸ ha) hs
        · exact ⟨h, hs⟩
    · rw [List.mem_cons, ih]
      constructor
      · rintro (rfl | ⟨hx, hs⟩)
        · exact ⟨List.mem_cons_self _ _, ha⟩
        · exact ⟨List.mem_cons_of_mem _ hx, fun hc => hs (List.mem_cons_of_mem _ hc)⟩
      · rintro ⟨hx, hs⟩
        rcases List.mem_cons.mp hx with h | h
        · exact Or.inl h
        · by_cases hxa : x = a
          · exact Or.inl hxa
          · exact Or.inr ⟨h, fun hc => by
              rcases List.mem_cons.mp hc with h2 | h2
              · exact hxa h2
              · exact hs h2⟩

theorem nodup_dedupFirstAux (l : List String) :
    ∀ seen : List String, (dedupFirstAux seen l).Nodup := by
  induction l with
  | nil => intro seen; simp [dedupFirstAux]
  | cons a as ih =>
    intro seen
    unfold dedupFirstAux
    split_ifs with ha
    · exact ih seen
    · refine List.Nodup.cons ?_ (ih (a :: seen))
      intro hc
      exact ((mem_dedupFirstAux as (a :: seen) a).mp hc).2 (List.mem_cons_self _ _)

theorem nodup_dedupFirst (l : List String) : (dedupFirst l).Nodup :=
  nodup_dedupFirstAux l []

theorem mem_dedupFirst (l : List String) (x : String) : x ∈ dedupFirst l ↔ x ∈ l := by
  rw [dedupFirst, mem_dedupFirstAux]
  simp

theorem dedupFirst_toFinset (l : List String) : (dedupFirst l).toFinset = l.toFinset := by
  ext x
  simp [List.mem_toFinset, mem_dedupFirst]

theorem dedupFirst_length (l : List String) : (dedupFirst l).length = l.toFinset.card := by
  rw [← dedupFirst_toFinset, List.toFinset_card_of_nodup (nodup_dedupFirst l)]

theorem length_filter_contains (A B : List String) (h : A.Nodup) :
    (A.filter (fun t => B.contains t)).length = (A.toFinset ∩ B.toFinset).card := by
  have h1 : (A.filter (fun t => B.contains t)).length
      = (A.filter (fun t => B.contains t)).toFinset.card :=
    (List.toFinset_card_of_nodup (h.filter _)).symm
  rw [h1, List.toFinset_filter]
  congr 1
  ext x
  simp [List.mem_toFinset, Finset.mem_filter, Finset.mem_inter, List.contains]

/-- Concrete record whose hyphenated name separates the two exact-match
tests. -/
def skAbCd : RemoteSkill := ⟨"ab-cd", "", "test-registry", "", "general", [], "", ""⟩

/-- C3 counterexample.  For the query token set `{"xab", "cd"}` (joined as
`"xab cd"`) against the record named `"ab-cd"`, the claimed formula forces
`name_score = 1.0` (the normalized name `"ab cd"` is a substring of the
joined query, giving score `5/11`), but the source tests the
lowercased, un-normalized name `"ab-cd"`, which is not a substring, so the
code scores `5/22`. -/
theorem score_formula_counterexample :
    calculateScore ["xab", "cd"] skAbCd = 5 / 22
      ∧ scoreSpecClaimed ["xab", "cd"] skAbCd = 5 / 11
      ∧ calculateScore ["xab", "cd"] skAbCd ≠ scoreSpecClaimed ["xab", "cd"] skAbCd := by
  have h1 : calculateScore ["xab", "cd"] skAbCd = 5 / 22 := by
    show (min (((1 / 2 : ℚ) + 0 / 2 * (7 / 10) + 0 / 2 * (1 / 2)) / (11 / 5)) 1 : ℚ) = 5 / 22
    norm_num
  have h2 : scoreSpecClaimed ["xab", "cd"] skAbCd = 5 / 11 := by
    show (min (((1 : ℚ) + 0 / 2 * (7 / 10) + 0 / 2 * (1 / 2)) / (11 / 5)) 1 : ℚ) = 5 / 11
    norm_num
  refine ⟨h1, h2, ?_⟩
  rw [h1, h2]
  norm_num

/-- C3 (amended).  `_calculate_score` computes exactly the section 4.5
formula, with the amendment that the substring branch of the exact-match
override tests the lowercased name with hyphens intact (not the
hyphen-to-space-normalized name) against the joined query. -/
theorem score_formula_amended (q : List String) (sk : RemoteSkill) (hq : q.Nodup) :
    calculateScore q sk = scoreSpecAmended q sk := by
  have e1 : ((dedupFirst (tokenize 2 (hyphenToSpace (lowerStr sk.name)))).filter
        (fun t => q.contains t)).length
      = (q.toFinset ∩ (tokenize 2 (hyphenToSpace (lowerStr sk.name))).toFinset).card := by
    rw [length_filter_contains _ _ (nodup_dedupFirst _), dedupFirst_toFinset, Finset.inter_comm]
  have e2 : (q.filter (fun t => (tokenize 2 (lowerStr sk.description)).contains t)).length
      = (q.toFinset ∩ (tokenize 2 (lowerStr sk.description)).toFinset).card :=
    length_filter_contains _ _ hq
  have e3 : (q.filter (fun t => sk.keywords.contains t)).length
      = (q.toFinset ∩ sk.keywords.toFinset).card :=
    length_filter_contains _ _ hq
  have e4 : (dedupFirst (tokenize 2 (hyphenToSpace (lowerStr sk.name)))).length
      = (tokenize 2 (hyphenToSpace (lowerStr sk.name))).toFinset.card :=
    dedupFirst_length _
  have e5 : q.length = q.toFinset.card :=
    (List.toFinset_card_of_nodup hq).symm
  simp only [calculateScore, scoreSpecAmended]
  rw [e1, e2, e3, e4, e5]

/-- C3 (amended) witness at a concrete query token set and record. -/
theorem score_formula_amended_witness :
    calculateScore ["xab", "cd"] skPdf = scoreSpecAmended ["xab", "cd"] skPdf :=
  score_formula_amended ["xab", "cd"] skPdf (by decide)

theorem firstMatching_spec (cs : List (String × List String)) (text : String) :
    (firstMatching cs text = "general" ∧ ∀ p ∈ cs, catMatches p text = false)
    ∨ ∃ l1 p l2, cs = l1 ++ p :: l2
        ∧ firstMatching cs text = p.1
        ∧ catMatches p text = true
        ∧ ∀ q ∈ l1, catMatches q text = false := by
  induction cs with
  | nil => exact Or.inl ⟨rfl, by simp⟩
  | cons c cs ih =>
    cases hq : catMatches c text with
    | true =>
      refine Or.inr ⟨[], c, cs, rfl, ?_, hq, by simp⟩
      simp [firstMatching, hq]
    | false =>
      rcases ih with ⟨hg, hall⟩ | ⟨l1, p, l2, hcs, hres, hm, hl1⟩
      · refine Or.inl ⟨?_, ?_⟩
        · simp [firstMatching, hq, hg]
        · intro p hp
          rcases List.mem_cons.mp hp with rfl | hp2
          · exact hq
          · exact hall p hp2
      · refine Or.inr ⟨c :: l1, p, l2, by rw [hcs, List.cons_append], ?_, hm, ?_⟩
        · simp [firstMatching, hq, hres]
        · intro q hqq
          rcases List.mem_cons.mp hqq with rfl | hq2
          · exact hq
          · exact hl1 q hq2

/-- C8.  `_categorize` lowercases the concatenation of name and description
and walks the category table in declaration order: either no category's
keyword list has a substring match and the result is `"general"`, or the
result is the first category (in declaration order) with at least one
matching keyword — every earlier category matches nothing, so match counts
never influence the outcome. -/
theorem categorize_first_match (name description : String) :
    (categorize name description = "general"
      ∧ ∀ p ∈ categoriesList, catMatches p (catText name description) = false)
    ∨ ∃ l1 p l2, categoriesList = l1 ++ p :: l2
        ∧ categorize name description = p.1
        ∧ catMatches p (catText name description) = true
        ∧ ∀ q ∈ l1, catMatches q (catText name description) = false :=
  firstMatching_spec categoriesList (catText name description)

theorem lookupSkill_nil (k : String) : lookupSkill [] k = none := rfl

theorem lookupSkill_append_single (m : SkillMap) (n : String) (v : RemoteSkill) (k : String) :
    lookupSkill (m ++ [(n, v)]) k
      = match lookupSkill m k with
        | some w => some w
        | none => if n = k then some v else none := by
  induction m with
  | nil =>
    by_cases h : n = k <;> simp [lookupSkill, List.find?, h]
  | cons p ps ih =>
    by_cases hp : p.1 = k
    · simp [lookupSkill, List.find?, hp]
    · simp only [lookupSkill, List.cons_append, List.find?] at *
      rw [show (decide (p.1 = k)) = false from by simp [hp]]
      simpa [lookupSkill] using ih

theorem mapHas_false_iff (m : SkillMap) (k : String) :
    mapHas m k = false ↔ lookupSkill m k = none := by
  induction m with
  | nil => simp [mapHas, lookupSkill, List.find?]
  | cons p ps ih =>
    by_cases hp : p.1 = k
    · simp [mapHas, lookupSkill, List.find?, hp]
    · simp only [mapHas, List.any_cons, lookupSkill, List.find?] at *
      rw [show (decide (p.1 = k)) = false from by simp [hp]]
      simpa [mapHas, lookupSkill, hp] using ih

theorem mapHas_true_iff (m : SkillMap) (k : String) :
    mapHas m k = true ↔ lookupSkill m k ≠ none := by
  constructor
  · intro h hn
    have h2 := (mapHas_false_iff m k).mpr hn
    rw [h] at h2
    exact absurd h2 (by simp)
  · intro h
    cases hm : mapHas m k
    · exact absurd ((mapHas_false_iff m k).mp hm) h
    · rfl

theorem indexDirStep_preserve (reg : RegistryCfg) (d : DirFetch) (m : SkillMap)
    (x : String) (v : RemoteSkill) (h : lookupSkill m x = some v) :
    lookupSkill (indexDirStep reg m d) x = some v := by
  rcases d with ⟨dn, parsed⟩
  cases hs : skipDirs.contains dn
  · rcases parsed with _ | ⟨nameOpt, descOpt⟩
    · simp [indexDirStep, hs, h]
    · rcases nameOpt with _ | n
      · simp [indexDirStep, hs, h]
      · by_cases hn : n = ""
        · simp [indexDirStep, hs, hn, h]
        · cases hh : mapHas m n
          · have hnone : lookupSkill m n = none := (mapHas_false_iff m n).mp hh
            have hnx : n ≠ x := by
              intro he
              rw [he, h] at hnone
              exact Option.noConfusion hnone
            simp only [indexDirStep, hs, hn, hh]
            simp only [Bool.false_eq_true, if_false, if_neg hn]
            rw [lookupSkill_append_single, h]
          · simp [indexDirStep, hs, hn, hh, h]
  · have hmem : dn ∈ skipDirs := by simpa using hs
    simp [indexDirStep, hmem, h]

theorem indexDirStep_congr (reg : RegistryCfg) (d : DirFetch) (m m' : SkillMap)
    (x : String) (h : lookupSkill m x = lookupSkill m' x) :
    lookupSkill (indexDirStep reg m d) x = lookupSkill (indexDirStep reg m' d) x := by
  rcases d with ⟨dn, parsed⟩
  cases hs : skipDirs.contains dn
  · rcases parsed with _ | ⟨nameOpt, descOpt⟩
    · simp [indexDirStep, hs, h]
    · rcases nameOpt with _ | n
      · simp [indexDirStep, hs, h]
      · by_cases hn : n = ""
        · simp [indexDirStep, hs, hn, h]
        · simp only [indexDirStep, hs, Bool.false_eq_true, if_false, if_neg hn]
          by_cases hnx : n = x
          · subst hnx
            have hmm : mapHas m n = mapHas m' n := by
              cases hl : lookupSkill m n with
              | none =>
                have hl2 : lookupSkill m' n = none := by rw [← h]; exact hl
                rw [(mapHas_false_iff m n).mpr hl, (mapHas_false_iff m' n).mpr hl2]
              | some w =>
                have hl2 : lookupSkill m' n = some w := by rw [← h]; exact hl
                have t1 : mapHas m n = true := (mapHas_true_iff m n).mpr (by simp [hl])
                have t2 : mapHas m' n = true := (mapHas_true_iff m' n).mpr (by simp [hl2])
                rw [t1, t2]
            cases hh : mapHas m' n with
            | true =>
              rw [hmm, hh]
              simpa using h
            | false =>
              rw [hmm, hh]
              simp only [Bool.false_eq_true, if_false]
              rw [lookupSkill_append_single, lookupSkill_append_single]
              rw [(mapHas_false_iff m n).mp (hmm.trans hh), (mapHas_false_iff m' n).mp hh]
          · have keep : ∀ mm : SkillMap,
                lookupSkill (if mapHas mm n = true then mm
                  else mm ++ [(n, mkRegistrySkill reg dn n descOpt)]) x = lookupSkill mm x := by
              intro mm
              cases hmm : mapHas mm n
              · simp only [Bool.false_eq_true, if_false]
                rw [lookupSkill_append_single]
                cases hl : lookupSkill mm x
                · simp [hnx]
                · simp
              · simp
            rw [keep m, keep m', h]
  · have hmem : dn ∈ skipDirs := by simpa using hs
    simp [indexDirStep, hmem, h]

theorem indexGithub_preserve (reg : RegistryCfg) (ds : List DirFetch) :
    ∀ (m : SkillMap) (x : String) (v : RemoteSkill), lookupSkill m x = some v →
      lookupSkill (indexGithubRegistry reg m ds) x = some v := by
  induction ds with
  | nil => intro m x v h; exact h
  | cons d ds ih =>
    intro m x v h
    exact ih _ x v (indexDirStep_preserve reg d m x v h)

theorem indexGithub_congr (reg : RegistryCfg) (ds : List DirFetch) :
    ∀ (m m' : SkillMap) (x : String), lookupSkill m x = lookupSkill m' x →
      lookupSkill (indexGithubRegistry reg m ds) x
        = lookupSkill (indexGithubRegistry reg m' ds) x := by
  induction ds with
  | nil => intro m m' x h; exact h
  | cons d ds ih =>
    intro m m' x h
    exact ih _ _ x (indexDirStep_congr reg d m m' x h)

theorem mapHas_false_not_mem_keys (m : SkillMap) (n : String) (h : mapHas m n = false) :
    n ∉ m.map Prod.fst := by
  intro hc
  rcases List.mem_map.mp hc with ⟨p, hp, hp1⟩
  have : mapHas m n = true := by
    simp only [mapHas, List.any_eq_true]
    exact ⟨p, hp, by simp [hp1]⟩
  rw [h] at this
  exact absurd this (by simp)

theorem indexDirStep_keysNodup (reg : RegistryCfg) (d : DirFetch) (m : SkillMap)
    (h : (m.map Prod.fst).Nodup) : ((indexDirStep reg m d).map Prod.fst).Nodup := by
  rcases d with ⟨dn, parsed⟩
  cases hs : skipDirs.contains dn
  · rcases parsed with _ | ⟨nameOpt, descOpt⟩
    · simpa [indexDirStep, hs] using h
    · rcases nameOpt with _ | n
      · simpa [indexDirStep, hs] using h
      · by_cases hn : n = ""
        · simpa [indexDirStep, hs, hn] using h
        · cases hh : mapHas m n
          · simp only [indexDirStep, hs, Bool.false_eq_true, if_false, if_neg hn, hh]
            rw [List.map_append]
            simp only [List.map_cons, List.map_nil]
            rw [List.nodup_append]
            exact ⟨h, List.nodup_singleton _, by
              intro a ha hb
              rcases List.mem_singleton.mp hb with rfl
              exact mapHas_false_not_mem_keys m a hh ha⟩
          · simpa [indexDirStep, hs, hn, hh] using h
  · have hmem : dn ∈ skipDirs := by simpa using hs
    simpa [indexDirStep, hmem] using h

theorem indexGithub_keysNodup (reg : RegistryCfg) (ds : List DirFetch) :
    ∀ m : SkillMap, (m.map Prod.fst).Nodup →
      ((indexGithubRegistry reg m ds).map Prod.fst).Nodup := by
  induction ds with
  | nil => intro m h; exact h
  | cons d ds ih => intro m h; exact ih _ (indexDirStep_keysNodup reg d m h)

theorem lookup_of_mem_keysNodup (m : SkillMap) (h : (m.map Prod.fst).Nodup)
    (p : String × RemoteSkill) (hp : p ∈ m) : lookupSkill m p.1 = some p.2 := by
  induction m with
  | nil => cases hp
  | cons q qs ih =>
    rcases List.mem_cons.mp hp with rfl | hp2
    · simp [lookupSkill, List.find?]
    · have hq : q.1 ≠ p.1 := by
        intro he
        have hmem : p.1 ∈ qs.map Prod.fst := List.mem_map_of_mem _ hp2
        rw [← he] at hmem
        rw [List.map_cons, List.nodup_cons] at h
        exact h.1 hmem
      simp only [lookupSkill, List.find?]
      rw [show decide (q.1 = p.1) = false from by simp [hq]]
      have h2 : (qs.map Prod.fst).Nodup := by
        rw [List.map_cons, List.nodup_cons] at h
        exact h.2
      exact ih h2 hp2

/-- The record a single registry would contribute for name `x` when indexed
on its own (first directory defining `x` wins within the registry). -/
def regRecord (rd : RegistryCfg × List DirFetch) (x : String) : Option RemoteSkill :=
  lookupSkill (indexGithubRegistry rd.1 [] rd.2) x

/-- C5.  For a pair of github registries that both define a skill named
`x`, with `A` carrying the lower priority number, the merged remote index
(built by indexing registries in ascending priority order, in either
configured order) contains exactly one record for `x` — the keys of the map
are duplicate-free and every entry keyed `x` is `A`'s record — and that
record is the one contributed by `A`; `B`'s record is dropped. -/
theorem registry_dedup_priority
    (A B : RegistryCfg × List DirFetch) (x : String) (ra rb : RemoteSkill)
    (hA : A.1.rtype = "github") (hB : B.1.rtype = "github")
    (hp : A.1.priority.getD 99 < B.1.priority.getD 99)
    (hra : regRecord A x = some ra) (_hrb : regRecord B x = some rb)
    (regs : List (RegistryCfg × List DirFetch))
    (hregs : regs = [A, B] ∨ regs = [B, A]) :
    lookupSkill (buildRegistries [] regs) x = some ra
      ∧ ((buildRegistries [] regs).map Prod.fst).Nodup
      ∧ ∀ p ∈ buildRegistries [] regs, p.1 = x → p.2 = ra := by
  have hsort : sortAscBy (fun rd => rd.1.priority.getD 99) regs = [A, B] := by
    rcases hregs with rfl | rfl
    · show insertAscBy _ A (insertAscBy _ B (sortAscBy _ [])) = [A, B]
      simp [sortAscBy, insertAscBy, le_of_lt hp]
    · show insertAscBy _ B (insertAscBy _ A (sortAscBy _ [])) = [A, B]
      simp [sortAscBy, insertAscBy, not_le.mpr hp]
  have hbuild : buildRegistries [] regs
      = indexGithubRegistry B.1 (indexGithubRegistry A.1 [] A.2) B.2 := by
    unfold buildRegistries
    rw [hsort]
    simp [List.foldl, hA, hB]
  have hlook : lookupSkill (buildRegistries [] regs) x = some ra := by
    rw [hbuild]
    exact indexGithub_preserve B.1 B.2 _ x ra hra
  have hnodup : ((buildRegistries [] regs).map Prod.fst).Nodup := by
    rw [hbuild]
    exact indexGithub_keysNodup B.1 B.2 _
      (indexGithub_keysNodup A.1 A.2 [] (by simp))
  refine ⟨hlook, hnodup, ?_⟩
  intro p hpmem hpx
  have := lookup_of_mem_keysNodup _ hnodup p hpmem
  rw [hpx, hlook] at this
  exact (Option.some.injEq _ _).mp this.symm

def regA : RegistryCfg × List DirFetch :=
  (⟨"reg-a", "github", "owner-a", "repo-a", "main", "https://github.com/owner-a/repo-a", some 1⟩,
   [⟨"x", some (some "x", some "descA")⟩])

def regB : RegistryCfg × List DirFetch :=
  (⟨"reg-b", "github", "owner-b", "repo-b", "main", "https://github.com/owner-b/repo-b", some 2⟩,
   [⟨"x", some (some "x", some "descB")⟩])

/-- C5 witness: two concrete registries, lower-priority one listed second. -/
theorem registry_dedup_priority_witness :
    lookupSkill (buildRegistries [] [regB, regA]) "x"
        = some (mkRegistrySkill regA.1 "x" "x" (some "descA"))
      ∧ ((buildRegistries [] [regB, regA]).map Prod.fst).Nodup
      ∧ ∀ p ∈ buildRegistries [] [regB, regA], p.1 = "x"
          → p.2 = mkRegistrySkill regA.1 "x" "x" (some "descA") :=
  registry_dedup_priority regA regB "x"
    (mkRegistrySkill regA.1 "x" "x" (some "descA"))
    (mkRegistrySkill regB.1 "x" "x" (some "descB"))
    rfl rfl (by decide) rfl rfl [regB, regA] (Or.inr rfl)

/-- The section 3 record invariants. -/
def SkillInv (sk : RemoteSkill) : Prop :=
  sk.name ≠ "" ∧ sk.keywords.length ≤ 15 ∧ sk.keywords.Nodup ∧ sk.category ∈ fixedCategories

theorem extractKeywordsAux_length (ws : List String) :
    ∀ acc : List String, acc.length < 15 → (extractKeywordsAux ws acc).length ≤ 15 := by
  induction ws with
  | nil =>
    intro acc h
    unfold extractKeywordsAux
    simp only [List.length_reverse]
    exact le_of_lt h
  | cons w ws ih =>
    intro acc h
    unfold extractKeywordsAux
    split_ifs with h1 h2
    · simp only [List.length_reverse, List.length_cons]
      omega
    · exact ih (w :: acc) (by simp only [List.length_cons]; omega)
    · exact ih acc h

theorem extractKeywordsAux_nodup (ws : List String) :
    ∀ acc : List String, acc.Nodup → (extractKeywordsAux ws acc).Nodup := by
  induction ws with
  | nil =>
    intro acc h
    unfold extractKeywordsAux
    simpa only [List.nodup_reverse] using h
  | cons w ws ih =>
    intro acc h
    unfold extractKeywordsAux
    split_ifs with h1 h2
    · simp only [List.nodup_reverse]
      exact List.Nodup.cons h1.2 h
    · exact ih (w :: acc) (List.Nodup.cons h1.2 h)
    · exact ih acc h

theorem extractKeywords_length (t : String) : (extractKeywords t).length ≤ 15 :=
  extractKeywordsAux_length _ [] (by norm_num)

theorem extractKeywords_nodup (t : String) : (extractKeywords t).Nodup :=
  extractKeywordsAux_nodup _ [] List.nodup_nil

theorem firstMatching_mem (cs : List (String × List String)) (text : String)
    (h : ∀ p ∈ cs, p.1 ∈ fixedCategories) : firstMatching cs text ∈ fixedCategories := by
  induction cs with
  | nil => exact (by decide : "general" ∈ fixedCategories)
  | cons c cs ih =>
    unfold firstMatching
    split_ifs with hm
    · exact h c (List.mem_cons_self _ _)
    · exact ih (fun p hp => h p (List.mem_cons_of_mem _ hp))

theorem categorize_mem (n d : String) : categorize n d ∈ fixedCategories :=
  firstMatching_mem categoriesList _ (by decide)

theorem mkRegistrySkill_inv (reg : RegistryCfg) (dn n : String) (descOpt : Option String)
    (hn : n ≠ "") : SkillInv (mkRegistrySkill reg dn n descOpt) :=
  ⟨hn, extractKeywords_length _, extractKeywords_nodup _, categorize_mem _ _⟩

theorem indexDirStep_inv (reg : RegistryCfg) (d : DirFetch) (m : SkillMap)
    (h : ∀ p ∈ m, SkillInv p.2) : ∀ p ∈ indexDirStep reg m d, SkillInv p.2 := by
  rcases d with ⟨dn, parsed⟩
  cases hs : skipDirs.contains dn
  · rcases parsed with _ | ⟨nameOpt, descOpt⟩
    · simpa [indexDirStep, hs] using h
    · rcases nameOpt with _ | n
      · simpa [indexDirStep, hs] using h
      · by_cases hn : n = ""
        · simpa [indexDirStep, hs, hn] using h
        · cases hh : mapHas m n
          · simp only [indexDirStep, hs, Bool.false_eq_true, if_false, if_neg hn, hh]
            intro p hp
            rcases List.mem_append.mp hp with hp1 | hp2
            · exact h p hp1
            · rcases List.mem_singleton.mp hp2 with rfl
              exact mkRegistrySkill_inv reg dn n descOpt hn
          · simpa [indexDirStep, hs, hn, hh] using h
  · have hmem : dn ∈ skipDirs := by simpa using hs
    simpa [indexDirStep, hmem] using h

theorem indexGithub_inv (reg : RegistryCfg) (ds : List DirFetch) :
    ∀ m : SkillMap, (∀ p ∈ m, SkillInv p.2) →
      ∀ p ∈ indexGithubRegistry reg m ds, SkillInv p.2 := by
  induction ds with
  | nil => intro m h; exact h
  | cons d ds ih => intro m h; exact ih _ (indexDirStep_inv reg d m h)

theorem foldRegs_inv (rlist : List (RegistryCfg × List DirFetch)) :
    ∀ m : SkillMap, (∀ p ∈ m, SkillInv p.2) →
      ∀ p ∈ rlist.foldl
          (fun acc rd => if rd.1.rtype = "github" then indexGithubRegistry rd.1 acc rd.2 else acc) m,
        SkillInv p.2 := by
  induction rlist with
  | nil => intro m h; exact h
  | cons rd rlist ih =>
    intro m h
    simp only [List.foldl]
    by_cases hg : rd.1.rtype = "github"
    · rw [if_pos hg]
      exact ih _ (indexGithub_inv rd.1 rd.2 m h)
    · rw [if_neg hg]
      exact ih _ h

/-- C7 (amended).  Every record of the index built over the network by the
registry merge satisfies the section 3 invariants (non-empty name, at most
15 duplicate-free keywords, category from the fixed set), provided the map
it starts from does; the cache-load and bundled-load paths copy file
contents without validation, so for them the invariants hold only if the
file already satisfies them. -/
theorem invariants_amended (regs : List (RegistryCfg × List DirFetch)) (m0 : SkillMap)
    (h : ∀ p ∈ m0, SkillInv p.2) : ∀ p ∈ buildRegistries m0 regs, SkillInv p.2 :=
  foldRegs_inv _ m0 h

/-- C7 (amended) witness: the invariants evaluated on the one record built
over the network from a concrete registry. -/
theorem invariants_amended_witness :
    SkillInv (("x", mkRegistrySkill regA.1 "x" "x" (some "descA")) : String × RemoteSkill).2 :=
  invariants_amended [regA] [] (by simp) _ (by decide)

/-- A bundled-index entry violating the section 3 invariants. -/
def badEntry : BundledEntry :=
  ⟨some "x", some "whatever", none, none, some "banana", some ["kk", "kk"], none⟩

/-- An environment whose only data source is a bundled index holding
`badEntry`. -/
def envBad : Env := ⟨none, some [badEntry], [], 0⟩

/-- C7 counterexample.  A bundled index entry carrying an out-of-taxonomy
category and duplicate keywords is inserted verbatim by the bundled
fallback load path, so the loaded index contains a record violating the
section 3 invariants. -/
theorem invariants_counterexample :
    lookupSkill (loadIndexModel envBad false []).1 "x" = some (entryToSkill badEntry)
      ∧ (entryToSkill badEntry).category ∉ fixedCategories
      ∧ ¬ (entryToSkill badEntry).keywords.Nodup := by
  exact ⟨rfl, by decide, by decide⟩

/-- A bundled entry named `x`, and a registry whose network manifest also
defines `x` with a different description. -/
def bundledX : BundledEntry := ⟨some "x", some "descA", none, none, none, none, none⟩

def envRefresh : Env := ⟨none, some [bundledX], [regB], 0⟩

/-- C4 counterexample.  A force refresh loads the bundled index before
indexing the registries, and network records never overwrite an existing
name: with a bundled entry `x` (description `descA`) and a registry whose
manifest also defines `x` (description `descB`), the post-refresh state
keeps the bundled record, so it is not the loaded-from-network state. -/
theorem refresh_network_counterexample :
    lookupSkill (refreshModel envRefresh).1 "x" = some (entryToSkill bundledX)
      ∧ lookupSkill (networkBuild envRefresh) "x"
          = some (mkRegistrySkill regB.1 "x" "x" (some "descB"))
      ∧ (refreshModel envRefresh).1 ≠ networkBuild envRefresh := by
  exact ⟨rfl, rfl, by decide⟩

/-- C4 (amended).  A force refresh clears the in-memory state and ignores
the cache file entirely regardless of freshness, then loads the bundled
index first and indexes the registries over the network on top of it
(adding only names the bundle did not supply), persisting the result when
non-empty; when no bundled index is available the post-refresh state is
exactly the loaded-from-network state. -/
theorem refresh_amended (env : Env) :
    (∀ c : Option CacheData, (refreshModel { env with cacheFile := c }).1 = (refreshModel env).1)
      ∧ (env.bundledFile = none → (refreshModel env).1 = networkBuild env)
      ∧ (refreshModel env).2
          = (if (refreshModel env).1.isEmpty then none
             else some (saveCacheData (refreshModel env).1 env.now)) := by
  refine ⟨fun c => rfl, ?_, rfl⟩
  intro h
  simp [refreshModel, loadIndexModel, bundledBranch, h, networkBuild]

def envNoBundle : Env := ⟨none, none, [regB], 5⟩

theorem refresh_amended_witness :
    (refreshModel envNoBundle).1 = networkBuild envNoBundle :=
  (refresh_amended envNoBundle).2.1 rfl

theorem mem_insertDescBy {α : Type} (key : α → ℚ) (x : α) (l : List α) (a : α) :
    a ∈ insertDescBy key x l ↔ a = x ∨ a ∈ l := by
  induction l with
  | nil => simp [insertDescBy]
  | cons y ys ih =>
    unfold insertDescBy
    split_ifs with h
    · simp [List.mem_cons]
    · rw [List.mem_cons, ih, List.mem_cons]
      tauto

theorem mem_sortDescBy {α : Type} (key : α → ℚ) (l : List α) (a : α) :
    a ∈ sortDescBy key l ↔ a ∈ l := by
  induction l with
  | nil => simp [sortDescBy]
  | cons x xs ih =>
    unfold sortDescBy
    rw [mem_insertDescBy, ih, List.mem_cons]

/-- C10.  Every result dict returned by `ExternalRegistry.search` carries
the record's description truncated to its first 200 characters and the
score rounded to 3 decimal places, coming from some record of the index;
and a query with no alphabetic token of length at least 2 yields the empty
result list (no record is scored). -/
theorem search_results_shape (m : SkillMap) (query : String) (n : Nat) (thr : ℚ) :
    (tokenize 2 (lowerStr query) = [] → searchExternal m query n thr = [])
      ∧ ∀ e ∈ searchExternal m query n thr,
          ∃ sk ∈ m.map Prod.snd,
            e.description = strTake200 sk.description
              ∧ e.score = round3 (calculateScore (dedupFirst (tokenize 2 (lowerStr query))) sk) := by
  constructor
  · intro h
    unfold searchExternal
    rw [show dedupFirst (tokenize 2 (lowerStr query)) = [] from by rw [h]; rfl]
    rfl
  · intro e he
    simp only [searchExternal] at he
    split_ifs at he with hq
    · exact absurd he (List.not_mem_nil e)
    · have he2 := mem_sortDescBy _ _ e |>.mp (List.take_subset n _ he)
      rcases List.mem_filterMap.mp he2 with ⟨sk, hskmem, hf⟩
      refine ⟨sk, hskmem, ?_⟩
      split_ifs at hf with ht
      have := Option.some.inj hf
      rw [← this]
      exact ⟨rfl, rfl⟩

/-- C10 witness: a query with no usable token returns the empty list. -/
theorem search_results_shape_witness :
    searchExternal [("pdf", skPdf)] "123" 10 (1 / 10) = [] :=
  (search_results_shape [("pdf", skPdf)] "123" 10 (1 / 10)).1 rfl

/-- C9.  `recommend` concatenates the tagged local and external result
lists, re-sorts the union by score descending (stably), and returns the top
entry with the next three names as alternatives; when the union is empty it
returns the "not recommended" dict with confidence 0 and the descriptive
message.  In particular the full pipeline at the empty query (whose local
candidates have non-empty names, per the section 3 invariant) returns that
dict — the function is total, so no exception is possible. -/
theorem recommend_spec (query : String) (lh : List LocalHit) (xh : List SearchEntry)
    (cands : List (RemoteSkill × String)) (m : SkillMap) :
    (sortDescBy (fun h => h.score) (lh.map toMergedLocal ++ xh.map toMergedExt) = []
        → recommendFromHits query lh xh = noRecommendation query)
      ∧ (∀ best rest,
          sortDescBy (fun h => h.score) (lh.map toMergedLocal ++ xh.map toMergedExt)
              = best :: rest
          → recommendFromHits query lh xh
              = { recommended := true, confidence := best.score, message := none,
                  skill := some best.name, installed := some best.installed,
                  source := some best.source,
                  url := some (best.url.getD (best.path.getD "")),
                  description := some best.description,
                  alternatives := (rest.take 3).map (fun h => h.name),
                  install_command := if best.installed then none
                    else some (installCmdFromResult best) })
      ∧ ((∀ c ∈ cands, c.1.name ≠ "") → recommendModel cands m "" = noRecommendation "") := by
  refine ⟨?_, ?_, ?_⟩
  · intro h
    simp only [recommendFromHits]
    rw [h]
  · intro best rest h
    simp only [recommendFromHits]
    rw [h]
  · intro hc
    unfold recommendModel
    have h1 : searchExternal m "" 5 (1 / 10) = [] := rfl
    have h2 : localSearch cands "" 5 = [] := by
      simp only [localSearch]
      rw [List.filterMap_eq_nil_iff.mpr ?_]
      · rfl
      · intro c hcc
        rw [if_neg]
        intro hle
        have hz : calculateScore (dedupFirst (tokenize 2 (lowerStr ""))) c.1 = 0 := by
          rw [show dedupFirst (tokenize 2 (lowerStr "")) = ([] : List String) from rfl]
          exact score_empty c.1 (hc c hcc)
        rw [hz] at hle
        norm_num at hle
    rw [h1, h2]
    rfl

/-- C9 witness: the pipeline at the empty query over empty sources. -/
theorem recommend_spec_witness :
    recommendModel [] [] "" = noRecommendation "" :=
  (recommend_spec "" [] [] [] []).2.2 (by simp)
